import Mathlib

/-!
A shallow embedding of the spectral index and navigation core of
`mzml_browser.py` (class `MzMLBrowser`).

Conventions of the embedding:

* Floating-point quantities of the program (retention times, intensities,
  m/z values, click coordinates) are modelled as rationals (`ℚ`).
* A pymzml spectrum object is modelled by `RawSpectrum`.  An attribute
  access that raises an exception is modelled by `none` in the outer
  `Option`; for the array attributes `mz` / `i`, whose value may also be
  the Python constant `None`, the inner `Option` models that value
  (`some none` = the attribute returned `None` without raising).
* The Python dict `self.spectra_data` is modelled as an association list
  where insertion conses the new binding and lookup takes the most recent
  binding, matching dict update/lookup observationally.
* GUI side effects (status bar text, matplotlib drawing, the Tk loading
  window) carry no indexed data and are not part of the state, except for
  the existence of the loading label (`loading_label`), which the progress
  code of the load loop reads, and the spectrum-plot axis limits
  (`ax2_xlim`, `ax2_ylim`), which the drag-zoom handlers write.
-/

/-- One raw spectrum record as yielded by the pymzml reader.
`none` in an outer position models an attribute lookup that raises. -/
structure RawSpectrum where
  ms_level : Option Nat
  scan_time : Option ℚ
  tic : Option ℚ
  mz : Option (Option (List ℚ))
  intensities : Option (Option (List ℚ))
deriving DecidableEq, Inhabited

/-- One entry of `self.spectra_data`: the dict
`{'rt': rt, 'mz': mz_values, 'intensities': intensities, 'index': i}`. -/
structure StoredSpectrum where
  rt : ℚ
  mz : List ℚ
  intensities : List ℚ
  index : Nat
deriving DecidableEq, Inhabited

/-- The spectrum store `self.spectra_data` (a Python dict keyed by the
enumeration index). -/
abbrev Store := List (Nat × StoredSpectrum)

/-- Dict lookup: the most recent binding of the key wins. -/
def storeLookup (s : Store) (k : Nat) : Option StoredSpectrum :=
  (s.find? (fun p => p.1 == k)).map Prod.snd

/-- Dict update `self.spectra_data[i] = v`: the new binding shadows any
older one. -/
def storeInsert (s : Store) (k : Nat) (v : StoredSpectrum) : Store :=
  (k, v) :: s

/-- The value of `self.tic_data` after a successful load: the three
parallel containers built by the loop. -/
structure TicData where
  times : List ℚ
  intensities : List ℚ
  indices : List Nat
deriving DecidableEq, Inhabited

/-- Which axes a matplotlib event hit (`event.inaxes`): the TIC plot
(`ax1`), the mass-spectrum plot (`ax2`), or none. -/
inductive PlotAxes where
  | ticPlot
  | specPlot
deriving DecidableEq

/-- A matplotlib mouse event, with the fields the handlers read.
`xdata` / `ydata` are `none` when the coordinate is undefined. -/
structure MouseEvent where
  inaxes : Option PlotAxes
  button : Nat
  xdata : Option ℚ
  ydata : Option ℚ

/-- The mutable state of the `MzMLBrowser` object that the indexed-data
claims are about. -/
structure BrowserState where
  tic_data : Option TicData
  spectra_data : Store
  current_spectrum_index : Nat
  loading_label : Bool
  zoom_active : Bool
  zoom_start : Option (Option ℚ × Option ℚ)
  zoom_end : Option (Option ℚ × Option ℚ)
  ax2_xlim : ℚ × ℚ
  ax2_ylim : ℚ × ℚ
deriving DecidableEq

/-- The local state of one run of the parsing loop in `load_mzml_file`:
the binding of the local variable `rt` (`none` = not yet bound, so that
reading it raises `NameError`), the three TIC containers, and the store
being mutated in place. -/
structure LoadState where
  rt : Option ℚ
  tic_times : List ℚ
  tic_intensities : List ℚ
  spectrum_indices : List Nat
  spectra_data : Store
deriving DecidableEq

/-- The store-insertion tail of one loop iteration: reading
`spectrum.mz` and `spectrum.i` (either may raise), the guard
`mz_values is not None and intensities is not None and len(mz_values) > 0`,
and the dict write, whose `'rt': rt` read raises `NameError` when `rt`
is unbound.  Any raise aborts the iteration, keeping mutations already
made. -/
def storePhase (st : LoadState) (i : Nat) (r : RawSpectrum) : LoadState :=
  match r.mz with
  | none => st
  | some mzv =>
    match r.intensities with
    | none => st
    | some iv =>
      match mzv, iv with
      | some mzl, some il =>
        if 0 < mzl.length then
          match st.rt with
          | none => st
          | some t =>
            { st with spectra_data := storeInsert st.spectra_data i ⟨t, mzl, il, i⟩ }
        else st
      | _, _ => st

/-- One iteration of the `for i, spectrum in enumerate(msrun)` loop body,
with its try/except: a raising attribute access ends the iteration but
keeps the mutations already performed, in source order
(`rt = spectrum.scan_time_in_minutes()`, `tic_times.append(rt)`,
`tic_intensities.append(spectrum.TIC)`, `spectrum_indices.append(i)`,
then the store phase; non-level-1 records go to the store phase
directly). -/
def processRecord (st : LoadState) (i : Nat) (r : RawSpectrum) : LoadState :=
  match r.ms_level with
  | none => st
  | some lvl =>
    if lvl = 1 then
      match r.scan_time with
      | none => st
      | some t =>
        let st1 := { st with rt := some t, tic_times := st.tic_times ++ [t] }
        match r.tic with
        | none => st1
        | some tot =>
          storePhase
            { st1 with
                tic_intensities := st1.tic_intensities ++ [tot],
                spectrum_indices := st1.spectrum_indices ++ [i] } i r
    else
      storePhase st i r

/-- The enumerate loop of `load_mzml_file`, starting at index `i`. -/
def loadLoop (st : LoadState) (i : Nat) : List RawSpectrum → LoadState
  | [] => st
  | r :: rs => loadLoop (processRecord st i r) (i + 1) rs

/-- The loop state at the start of a load: `rt` unbound, fresh TIC
containers, and `self.spectra_data` as it already is (the dict is never
cleared by `load_mzml_file`). -/
def initLoadState (bs : BrowserState) : LoadState :=
  ⟨none, [], [], [], bs.spectra_data⟩

/-- `load_mzml_file`: runs the loop over the stream, raises
`ValueError("No MS1 spectra found...")` when `spectrum_indices` is empty
(result flag `false`; the in-place mutations of `self.spectra_data`
survive the raise), otherwise commits `self.tic_data`,
`self.current_spectrum_index` (the middle entry of `spectrum_indices`)
and hides the loading indicator. -/
def load_mzml_file (bs : BrowserState) (records : List RawSpectrum) :
    BrowserState × Bool :=
  let st := loadLoop (initLoadState bs) 0 records
  if st.spectrum_indices.isEmpty then
    ({ bs with spectra_data := st.spectra_data }, false)
  else
    ({ bs with
        tic_data := some ⟨st.tic_times, st.tic_intensities, st.spectrum_indices⟩,
        spectra_data := st.spectra_data,
        current_spectrum_index :=
          st.spectrum_indices.getD (st.spectrum_indices.length / 2) 0,
        loading_label := false }, true)

/-- `cancel_loading`: hides the loading indicator (so the label no longer
exists) and sets a status message.  It touches nothing else. -/
def cancel_loading (bs : BrowserState) : BrowserState :=
  { bs with loading_label := false }

/-- The enumerate loop threaded together with the loading-label flag,
with a cancel request arriving while record `k` is being processed (the
`loading_window.update()` call at the progress points is the only place
the surrounding event loop can run `cancel_loading`).  The loop body
reads the label only in the progress guard
`if i % 100 == 0 and self.loading_label:`, whose both branches leave the
load state untouched, so the data component is threaded unchanged. -/
def loadLoopCancel (st : LoadState) (lbl : Bool) (i : Nat) :
    List RawSpectrum → Nat → LoadState × Bool
  | [], _ => (st, lbl)
  | r :: rs, k =>
      loadLoopCancel (processRecord st i r) (if i = k then false else lbl)
        (i + 1) rs k

/-- `load_mzml_file` with `cancel_loading` invoked by the user while
record `k` of the stream is being processed. -/
def load_mzml_file_cancelled (bs : BrowserState) (records : List RawSpectrum)
    (k : Nat) : BrowserState × Bool :=
  let p := loadLoopCancel (initLoadState bs) bs.loading_label 0 records k
  let st := p.1
  if st.spectrum_indices.isEmpty then
    ({ bs with spectra_data := st.spectra_data, loading_label := p.2 }, false)
  else
    ({ bs with
        tic_data := some ⟨st.tic_times, st.tic_intensities, st.spectrum_indices⟩,
        spectra_data := st.spectra_data,
        current_spectrum_index :=
          st.spectrum_indices.getD (st.spectrum_indices.length / 2) 0,
        loading_label := false }, true)

/-- `np.argmin(np.abs(times - t))`: the first position minimizing the
absolute distance to `t` (numpy's argmin returns the first occurrence of
the minimum). -/
def argminAbs (t : ℚ) : List ℚ → Nat
  | [] => 0
  | [_] => 0
  | x :: y :: ys =>
    let r := argminAbs t (y :: ys)
    if |(y :: ys).getD r 0 - t| < |x - t| then r + 1 else 0

/-- `on_click`: a click on the TIC plot selects the spectrum whose
retention time is nearest the clicked time; a left click on the
mass-spectrum plot arms the drag-zoom selection and records the anchor
point. -/
def on_click (bs : BrowserState) (e : MouseEvent) : BrowserState :=
  if e.inaxes = some PlotAxes.ticPlot ∧ bs.tic_data.isSome then
    match bs.tic_data with
    | none => bs
    | some td =>
      match e.xdata with
      | none => bs
      | some t =>
        let closest := argminAbs t td.times
        { bs with current_spectrum_index := td.indices.getD closest 0 }
  else if e.inaxes = some PlotAxes.specPlot then
    if e.button = 1 then
      { bs with zoom_active := true, zoom_start := some (e.xdata, e.ydata) }
    else bs
  else bs

/-- `on_mouse_move`: while the zoom selection is armed and the pointer is
over the mass-spectrum plot, track the endpoint. -/
def on_mouse_move (bs : BrowserState) (e : MouseEvent) : BrowserState :=
  if bs.zoom_active ∧ e.inaxes = some PlotAxes.specPlot then
    { bs with zoom_end := some (e.xdata, e.ydata) }
  else bs

/-- `on_mouse_release`: only a left-button release over the mass-spectrum
plot while the selection is armed does anything; it commits the spanned
rectangle as the new axis limits when both recorded corners have defined
coordinates, and disarms the selection.  Any other release leaves the
state as it is. -/
def on_mouse_release (bs : BrowserState) (e : MouseEvent) : BrowserState :=
  if bs.zoom_active ∧ e.inaxes = some PlotAxes.specPlot ∧ e.button = 1 then
    let bs1 :=
      match bs.zoom_start, bs.zoom_end with
      | some s, some en =>
        match s.1, s.2, en.1, en.2 with
        | some x1, some y1, some x2, some y2 =>
          { bs with
              ax2_xlim := (min x1 x2, max x1 x2),
              ax2_ylim := (min y1 y2, max y1 y2) }
        | _, _, _, _ => bs
      | _, _ => bs
    { bs1 with zoom_active := false, zoom_start := none, zoom_end := none }
  else bs

/-- `on_left_arrow`: locate the current spectrum in
`tic_data['indices']` by value (`list.index`) and move one position
left, unless already at the first position or the series has fewer than
two entries. -/
def on_left_arrow (bs : BrowserState) : BrowserState :=
  match bs.tic_data with
  | none => bs
  | some td =>
    if 1 < td.indices.length then
      let cur := td.indices.indexOf bs.current_spectrum_index
      if 0 < cur then
        { bs with current_spectrum_index := td.indices.getD (cur - 1) 0 }
      else bs
    else bs

/-- `on_right_arrow`: symmetric to `on_left_arrow`, moving one position
right unless already at the last position. -/
def on_right_arrow (bs : BrowserState) : BrowserState :=
  match bs.tic_data with
  | none => bs
  | some td =>
    if 1 < td.indices.length then
      let cur := td.indices.indexOf bs.current_spectrum_index
      if cur < td.indices.length - 1 then
        { bs with current_spectrum_index := td.indices.getD (cur + 1) 0 }
      else bs
    else bs

/-- The boolean-mask filtering of `update_plots`:
`non_zero_mask = intensities > 0` applied to the two parallel arrays,
modelled on the zipped pairs (the arrays of a `SpectrumRecord` are
co-indexed and equal length). -/
def renderFiltered (mz intens : List ℚ) : List ℚ × List ℚ :=
  let pairs := (mz.zip intens).filter (fun p => 0 < p.2)
  (pairs.map Prod.fst, pairs.map Prod.snd)

/-- `np.argsort(intensities_filtered)[-10:]`: the positions of the ten
largest filtered intensities, as the last ten entries of a permutation
of the positions sorted by intensity ascending (argsort returns a
sorting permutation; the stable insertion sort is its representative
here). -/
def topPeakPositions (intf : List ℚ) : List Nat :=
  (List.insertionSort (fun a b => intf.getD a 0 ≤ intf.getD b 0)
    (List.range intf.length)).drop (intf.length - 10)

/-- The render contract of `update_plots` for one record: the filtered
parallel arrays and the annotated peaks `(mz, intensity)` in argsort
order. -/
def render_spectrum_arrays (mz intens : List ℚ) :
    List ℚ × List ℚ × List (ℚ × ℚ) :=
  let f := renderFiltered mz intens
  (f.1, f.2, (topPeakPositions f.2).map (fun k => (f.1.getD k 0, f.2.getD k 0)))

/-- The update made to the local `rt` binding by one record: a level-1
record with a readable scan time rebinds it; every other record leaves
it alone. -/
def rtUpd (acc : Option ℚ) (r : RawSpectrum) : Option ℚ :=
  match r.ms_level with
  | some 1 =>
    match r.scan_time with
    | some t => some t
    | none => acc
  | _ => acc

/-- A record that contributes an entry to the TIC containers: level 1
with readable scan time and readable TIC attribute. -/
def goodMs1 (r : RawSpectrum) : Bool :=
  r.ms_level == some 1 && r.scan_time.isSome && r.tic.isSome

/-- The `spectrum_indices` contributed by a stream suffix starting at
enumeration index `i`. -/
def ticIndicesOf (i : Nat) : List RawSpectrum → List Nat
  | [] => []
  | r :: rs => (if goodMs1 r then [i] else []) ++ ticIndicesOf (i + 1) rs

/-- The array-validity gate of the store phase, and the entry it would
insert for enumeration index `i` given the `rt` binding in force. -/
def storeCheck (i : Nat) (r : RawSpectrum) (rt : Option ℚ) :
    Option StoredSpectrum :=
  match r.mz, r.intensities with
  | some (some mzl), some (some il) =>
    if 0 < mzl.length then
      match rt with
      | some t => some ⟨t, mzl, il, i⟩
      | none => none
    else none
  | _, _ => none

/-- The store entry (if any) that processing record `r` at enumeration
index `i` inserts, given the `rt` binding `rtOld` in force before the
record. -/
def storeAttempt (i : Nat) (r : RawSpectrum) (rtOld : Option ℚ) :
    Option StoredSpectrum :=
  match r.ms_level with
  | none => none
  | some lvl =>
    if lvl = 1 then
      match r.scan_time, r.tic with
      | some t, some _ => storeCheck i r (some t)
      | _, _ => none
    else storeCheck i r rtOld

/-- A record every one of whose relevant lookups is readable; outside
this set the per-record handler absorbs the failure. -/
def malformed (r : RawSpectrum) : Prop :=
  r.mz = none ∨ r.mz = some none ∨ r.intensities = none ∨
    r.intensities = some none ∨ r.mz = some (some []) ∨ r.ms_level = none

/-! ## Dict and per-record step lemmas -/

theorem storeLookup_insert_self (s : Store) (k : Nat) (v : StoredSpectrum) :
    storeLookup (storeInsert s k v) k = some v := by
  simp [storeLookup, storeInsert, List.find?_cons]

theorem storeLookup_insert_ne (s : Store) (k k' : Nat) (v : StoredSpectrum)
    (h : k' ≠ k) : storeLookup (storeInsert s k v) k' = storeLookup s k' := by
  simp only [storeLookup, storeInsert, List.find?_cons]
  have hb : ((k, v).1 == k') = false := by
    simp [Ne.symm h]
  simp [hb]

theorem storePhase_rt (st : LoadState) (i : Nat) (r : RawSpectrum) :
    (storePhase st i r).rt = st.rt := by
  unfold storePhase
  repeat' split
  all_goals rfl

theorem storePhase_tic_times (st : LoadState) (i : Nat) (r : RawSpectrum) :
    (storePhase st i r).tic_times = st.tic_times := by
  unfold storePhase
  repeat' split
  all_goals rfl

theorem storePhase_tic_intensities (st : LoadState) (i : Nat) (r : RawSpectrum) :
    (storePhase st i r).tic_intensities = st.tic_intensities := by
  unfold storePhase
  repeat' split
  all_goals rfl

theorem storePhase_indices (st : LoadState) (i : Nat) (r : RawSpectrum) :
    (storePhase st i r).spectrum_indices = st.spectrum_indices := by
  unfold storePhase
  repeat' split
  all_goals rfl

theorem storePhase_store (st : LoadState) (i : Nat) (r : RawSpectrum) :
    (storePhase st i r).spectra_data =
      match storeCheck i r st.rt with
      | some v => storeInsert st.spectra_data i v
      | none => st.spectra_data := by
  rcases r with ⟨ml, stime, tc, mz, ints⟩
  rcases mz with _ | (_ | mzl) <;> rcases ints with _ | (_ | il) <;>
    simp only [storePhase, storeCheck]
  by_cases h : 0 < mzl.length
  · rcases hrt : st.rt with _ | t <;> simp [h, hrt]
  · simp [h]

theorem processRecord_rt (st : LoadState) (i : Nat) (r : RawSpectrum) :
    (processRecord st i r).rt = rtUpd st.rt r := by
  rcases r with ⟨ml, stime, tc, mz, ints⟩
  rcases ml with _ | lvl
  · rfl
  · by_cases hl : lvl = 1
    · subst hl
      rcases stime with _ | t
      · rfl
      · rcases tc with _ | tot <;>
          simp [processRecord, rtUpd, storePhase_rt]
    · simp [processRecord, rtUpd, storePhase_rt, hl]

theorem processRecord_indices (st : LoadState) (i : Nat) (r : RawSpectrum) :
    (processRecord st i r).spectrum_indices =
      st.spectrum_indices ++ (if goodMs1 r then [i] else []) := by
  rcases r with ⟨ml, stime, tc, mz, ints⟩
  rcases ml with _ | lvl
  · simp [processRecord, goodMs1]
  · by_cases hl : lvl = 1
    · subst hl
      rcases stime with _ | t
      · simp [processRecord, goodMs1]
      · rcases tc with _ | tot <;>
          simp [processRecord, goodMs1, storePhase_indices]
    · simp [processRecord, goodMs1, storePhase_indices, hl]

theorem processRecord_store (st : LoadState) (i : Nat) (r : RawSpectrum) :
    (processRecord st i r).spectra_data =
      match storeAttempt i r st.rt with
      | some v => storeInsert st.spectra_data i v
      | none => st.spectra_data := by
  rcases r with ⟨ml, stime, tc, mz, ints⟩
  rcases ml with _ | lvl
  · rfl
  · by_cases hl : lvl = 1
    · subst hl
      rcases stime with _ | t
      · rfl
      · rcases tc with _ | tot
        · simp [processRecord, storeAttempt]
        · have := storePhase_store
            { st with
                rt := some t, tic_times := st.tic_times ++ [t],
                tic_intensities := st.tic_intensities ++ [tot],
                spectrum_indices := st.spectrum_indices ++ [i] } i
            ⟨some 1, some t, some tot, mz, ints⟩
          simp only [processRecord, storeAttempt]
          simpa using this
    · simp only [processRecord, storeAttempt]
      have h1 : (if lvl = 1 then False else True) := by simp [hl]
      rw [if_neg hl, if_neg hl]
      exact storePhase_store st i ⟨some lvl, stime, tc, mz, ints⟩

theorem processRecord_store_lookup_ne (st : LoadState) (i : Nat)
    (r : RawSpectrum) (k : Nat) (h : k ≠ i) :
    storeLookup (processRecord st i r).spectra_data k =
      storeLookup st.spectra_data k := by
  rw [processRecord_store]
  rcases storeAttempt i r st.rt with _ | v
  · rfl
  · exact storeLookup_insert_ne _ _ _ _ h

theorem processRecord_store_lookup_self (st : LoadState) (i : Nat)
    (r : RawSpectrum) :
    storeLookup (processRecord st i r).spectra_data i =
      (storeAttempt i r st.rt).or (storeLookup st.spectra_data i) := by
  rw [processRecord_store]
  rcases storeAttempt i r st.rt with _ | v
  · rfl
  · exact storeLookup_insert_self _ _ _

/-! ## Loop characterisation lemmas -/

theorem loadLoop_rt (rs : List RawSpectrum) :
    ∀ (st : LoadState) (i : Nat),
      (loadLoop st i rs).rt = rs.foldl rtUpd st.rt := by
  induction rs with
  | nil => intro st i; rfl
  | cons r rs ih =>
      intro st i
      simp only [loadLoop, List.foldl_cons]
      rw [ih, processRecord_rt]

theorem loadLoop_indices (rs : List RawSpectrum) :
    ∀ (st : LoadState) (i : Nat),
      (loadLoop st i rs).spectrum_indices =
        st.spectrum_indices ++ ticIndicesOf i rs := by
  induction rs with
  | nil => intro st i; simp [loadLoop, ticIndicesOf]
  | cons r rs ih =>
      intro st i
      simp only [loadLoop, ticIndicesOf]
      rw [ih, processRecord_indices, List.append_assoc]

theorem loadLoop_store_lo (rs : List RawSpectrum) :
    ∀ (st : LoadState) (i k : Nat), k < i →
      storeLookup (loadLoop st i rs).spectra_data k =
        storeLookup st.spectra_data k := by
  induction rs with
  | nil => intro st i k _; rfl
  | cons r rs ih =>
      intro st i k hk
      simp only [loadLoop]
      rw [ih _ _ _ (Nat.lt_succ_of_lt hk),
        processRecord_store_lookup_ne _ _ _ _ (Nat.ne_of_lt hk)]

theorem loadLoop_store_at (rs : List RawSpectrum) :
    ∀ (st : LoadState) (i j : Nat), j < rs.length →
      storeLookup (loadLoop st i rs).spectra_data (i + j) =
        (storeAttempt (i + j) (rs.getD j default)
            ((rs.take j).foldl rtUpd st.rt)).or
          (storeLookup st.spectra_data (i + j)) := by
  induction rs with
  | nil => intro st i j hj; simp at hj
  | cons r rs ih =>
      intro st i j hj
      rcases j with _ | j
      · simp only [loadLoop, Nat.add_zero, List.getD_cons_zero, List.take_zero,
          List.foldl_nil]
        rw [loadLoop_store_lo rs _ _ _ (Nat.lt_succ_self i),
          processRecord_store_lookup_self]
      · have hij : i + (j + 1) = (i + 1) + j := by omega
        simp only [loadLoop, List.getD_cons_succ, List.take_succ_cons,
          List.foldl_cons]
        rw [hij, ih _ _ _ (by simpa using hj), processRecord_rt,
          processRecord_store_lookup_ne _ _ _ _ (by omega)]

theorem loadLoopCancel_fst (rs : List RawSpectrum) :
    ∀ (st : LoadState) (lbl : Bool) (i k : Nat),
      (loadLoopCancel st lbl i rs k).1 = loadLoop st i rs := by
  induction rs with
  | nil => intro st lbl i k; rfl
  | cons r rs ih =>
      intro st lbl i k
      simp only [loadLoopCancel, loadLoop]
      exact ih _ _ _ _

/-! ## Characterisations of the derived record predicates -/

theorem ticIndicesOf_eq_nil (rs : List RawSpectrum) :
    ∀ i : Nat, ticIndicesOf i rs = [] ↔ ∀ r ∈ rs, goodMs1 r = false := by
  induction rs with
  | nil => intro i; simp [ticIndicesOf]
  | cons r rs ih =>
      intro i
      by_cases h : goodMs1 r
      · simp [ticIndicesOf, h]
      · simp only [ticIndicesOf, if_neg h, List.nil_append]
        rw [ih]
        simp [Bool.eq_false_iff.mpr h]

theorem mem_ticIndicesOf (rs : List RawSpectrum) :
    ∀ (i k : Nat), k ∈ ticIndicesOf i rs ↔
      ∃ j, j < rs.length ∧ k = i + j ∧ goodMs1 (rs.getD j default) = true := by
  induction rs with
  | nil => intro i k; simp [ticIndicesOf]
  | cons r rs ih =>
      intro i k
      simp only [ticIndicesOf, List.mem_append, ih]
      constructor
      · rintro (hk | ⟨j, hj, hk, hg⟩)
        · by_cases h : goodMs1 r
          · simp only [if_pos h, List.mem_singleton] at hk
            exact ⟨0, by simp, by omega, by simpa [hk] using h⟩
          · simp [if_neg h] at hk
        · exact ⟨j + 1, by simpa using hj, by omega, by simpa using hg⟩
      · rintro ⟨j, hj, hk, hg⟩
        rcases j with _ | j
        · left
          simp only [List.getD_cons_zero] at hg
          simp [hg, hk]
        · right
          exact ⟨j, by simpa using hj, by omega, by simpa using hg⟩

theorem rtUpd_ms1 (acc : Option ℚ) (r : RawSpectrum) (s : ℚ)
    (h1 : r.ms_level = some 1) (h2 : r.scan_time = some s) :
    rtUpd acc r = some s := by
  simp [rtUpd, h1, h2]

theorem rtUpd_not_ms1 (acc : Option ℚ) (r : RawSpectrum)
    (h : r.ms_level ≠ some 1) : rtUpd acc r = acc := by
  unfold rtUpd
  rcases hml : r.ms_level with _ | lvl
  · rfl
  · rcases lvl with _ | lvl
    · rfl
    · rcases lvl with _ | lvl
      · exact absurd hml h
      · rfl

theorem foldl_rtUpd_no_ms1 (rs : List RawSpectrum) :
    ∀ acc : Option ℚ, (∀ r ∈ rs, r.ms_level ≠ some 1) →
      rs.foldl rtUpd acc = acc := by
  induction rs with
  | nil => intro acc _; rfl
  | cons r rs ih =>
      intro acc h
      simp only [List.foldl_cons]
      rw [rtUpd_not_ms1 _ _ (h r (by simp))]
      exact ih _ (fun r' hr' => h r' (by simp [hr']))

theorem getD_mem {α : Type} (l : List α) (j : Nat) (d : α)
    (h : j < l.length) : l.getD j d ∈ l := by
  rw [List.getD_eq_getElem l d h]
  exact List.getElem_mem h

/-- Characterisation of the `rt` binding after a stream whose level-1
records all have a readable scan time: a bound `rt` is the scan time of
the last level-1 record so far, or was already bound and no level-1
record appeared. -/
theorem foldl_rtUpd_some (rs : List RawSpectrum) :
    ∀ acc : Option ℚ, ∀ t : ℚ,
      (∀ r ∈ rs, r.ms_level = some 1 → r.scan_time.isSome) →
      rs.foldl rtUpd acc = some t →
      (∃ m, m < rs.length ∧ (rs.getD m default).ms_level = some 1 ∧
        (rs.getD m default).scan_time = some t ∧
        ∀ m', m < m' → m' < rs.length →
          (rs.getD m' default).ms_level ≠ some 1) ∨
      (acc = some t ∧ ∀ r ∈ rs, r.ms_level ≠ some 1) := by
  induction rs with
  | nil =>
      intro acc t _ hfold
      exact Or.inr ⟨hfold, by simp⟩
  | cons r rs ih =>
      intro acc t hwf hfold
      simp only [List.foldl_cons] at hfold
      rcases ih (rtUpd acc r) t
          (fun r' hr' => hwf r' (by simp [hr'])) hfold with
        ⟨m, hm, hms, hst, hafter⟩ | ⟨hacc, hnone⟩
      · refine Or.inl ⟨m + 1, by simpa using hm, by simpa using hms,
          by simpa using hst, ?_⟩
        intro m' h1 h2
        rcases m' with _ | m'
        · omega
        · simpa using hafter m' (by omega) (by simpa using h2)
      · by_cases hms : r.ms_level = some 1
        · rcases Option.isSome_iff_exists.mp (hwf r (by simp) hms) with ⟨s, hs⟩
          rw [rtUpd_ms1 acc r s hms hs] at hacc
          refine Or.inl ⟨0, by simp, by simpa using hms, ?_, ?_⟩
          · simpa [hs] using hacc
          · intro m' h1 h2
            rcases m' with _ | m'
            · omega
            · simpa using hnone (rs.getD m' default)
                (getD_mem rs m' default (by simpa using h2))
        · rw [rtUpd_not_ms1 acc r hms] at hacc
          refine Or.inr ⟨hacc, ?_⟩
          intro r' hr'
          rcases List.mem_cons.mp hr' with h | h
          · simpa [h] using hms
          · exact hnone r' h

/-! ## argmin and list.index lemmas -/

theorem argminAbs_lt_length (t : ℚ) :
    ∀ xs : List ℚ, xs ≠ [] → argminAbs t xs < xs.length := by
  intro xs
  induction xs with
  | nil => intro h; exact absurd rfl h
  | cons x xs ih =>
      intro _
      rcases xs with _ | ⟨y, ys⟩
      · simp [argminAbs]
      · simp only [argminAbs]
        split
      
  
        · have := ih (by simp)
          simpa using Nat.succ_lt_succ this
        · simp

theorem argminAbs_min (t : ℚ) :
    ∀ xs : List ℚ, ∀ j, j < xs.length →
      |xs.getD (argminAbs t xs) 0 - t| ≤ |xs.getD j 0 - t| := by
  intro xs
  induction xs with
  | nil => intro j hj; simp at hj
  | cons x xs ih =>
      intro j hj
      rcases xs with _ | ⟨y, ys⟩
      · have hj0 : j = 0 := by simpa using Nat.lt_one_iff.mp (by simpa using hj)
        subst hj0
        simp [argminAbs]
      · simp only [argminAbs]
        split
        · rename_i hlt
          rcases j with _ | j
          · simpa using le_of_lt hlt
          · simpa using ih j (by simpa using hj)
        · rename_i hge
          push_neg at hge
          rcases j with _ | j
          · simp
          · simp only [List.getD_cons_zero, List.getD_cons_succ]
            exact le_trans hge (ih j (by simpa using hj))

theorem argminAbs_first (t : ℚ) :
    ∀ xs : List ℚ, ∀ j, j < argminAbs t xs →
      |xs.getD (argminAbs t xs) 0 - t| < |xs.getD j 0 - t| := by
  intro xs
  induction xs with
  | nil => intro j hj; simp [argminAbs] at hj
  | cons x xs ih =>
      intro j hj
      rcases xs with _ | ⟨y, ys⟩
      · simp [argminAbs] at hj
      · by_cases hc : |(y :: ys).getD (argminAbs t (y :: ys)) 0 - t| < |x - t|
        · simp only [argminAbs, if_pos hc] at hj ⊢
          rcases j with _ | j
          · simpa using hc
          · simp only [List.getD_cons_succ]
            exact ih j (by omega)
        · simp only [argminAbs, if_neg hc] at hj
          omega

/-- Python's `list.index` on a duplicate-free list returns the position
of the element looked up. -/
theorem indexOf_getD_of_nodup :
    ∀ (l : List Nat), l.Nodup → ∀ p, p < l.length →
      l.indexOf (l.getD p 0) = p := by
  intro l
  induction l with
  | nil => intro _ p hp; simp at hp
  | cons a l ih =>
      intro hnd p hp
      rcases p with _ | p
      · simp [List.indexOf_cons_self]
      · have hmem : l.getD p 0 ∈ l := getD_mem l p 0 (by simpa using hp)
        have hne : a ≠ l.getD p 0 := by
          intro h
          exact (List.nodup_cons.mp hnd).1 (h ▸ hmem)
        simp only [List.getD_cons_succ]
        rw [List.indexOf_cons_ne l hne]
        rw [ih (List.nodup_cons.mp hnd).2 p (by simpa using hp)]

/-! ## Claim theorems -/

/-- C5: for every non-empty TIC series and every time `t`, a click on the
TIC plot at `t` (`select_by_time`) selects the entry whose retention
time minimises `|time - t|`, and among equidistant entries the one at
the lower array position wins (the selected position is strictly better
than every earlier position). -/
theorem select_by_time_nearest (bs : BrowserState) (td : TicData) (t : ℚ)
    (htd : bs.tic_data = some td) (hne : td.times ≠ []) :
    argminAbs t td.times < td.times.length ∧
    (on_click bs ⟨some PlotAxes.ticPlot, 1, some t, none⟩).current_spectrum_index
      = td.indices.getD (argminAbs t td.times) 0 ∧
    (∀ j, j < td.times.length →
      |td.times.getD (argminAbs t td.times) 0 - t| ≤ |td.times.getD j 0 - t|) ∧
    (∀ j, j < argminAbs t td.times →
      |td.times.getD (argminAbs t td.times) 0 - t| < |td.times.getD j 0 - t|) := by
  refine ⟨argminAbs_lt_length t td.times hne, ?_, ?_, ?_⟩
  · simp [on_click, htd]
  · exact fun j hj => argminAbs_min t td.times j hj
  · exact fun j hj => argminAbs_first t td.times j hj

def c5Td : TicData := ⟨[1, 2], [10, 20], [4, 7]⟩

def c5Bs : BrowserState :=
  ⟨some c5Td, [], 0, false, false, none, none, (0, 1), (0, 1)⟩

theorem select_by_time_nearest_witness :
    c5Bs.tic_data = some c5Td ∧ c5Td.times ≠ [] ∧
    (argminAbs 2 c5Td.times < c5Td.times.length ∧
      (on_click c5Bs ⟨some PlotAxes.ticPlot, 1, some 2, none⟩).current_spectrum_index
        = c5Td.indices.getD (argminAbs 2 c5Td.times) 0 ∧
      (∀ j, j < c5Td.times.length →
        |c5Td.times.getD (argminAbs 2 c5Td.times) 0 - 2|
          ≤ |c5Td.times.getD j 0 - 2|) ∧
      (∀ j, j < argminAbs 2 c5Td.times →
        |c5Td.times.getD (argminAbs 2 c5Td.times) 0 - 2|
          < |c5Td.times.getD j 0 - 2|)) :=
  ⟨rfl, by simp [c5Td], select_by_time_nearest c5Bs c5Td 2 rfl (by simp [c5Td])⟩

def c6Td : TicData := ⟨[1, 2, 3], [10, 20, 30], [5, 6, 7]⟩

def c6Bs : BrowserState :=
  ⟨some c6Td, [], 5, false, false, none, none, (0, 1), (0, 1)⟩

/-- C6, counterexample: with the selection at the FIRST TIC entry,
`step(next)` moves the selection and the following `step(prev)` moves it
again (neither is a no-op that leaves the selection unchanged), and the
round trip restores the original selection — contradicting the claim
that at the first entry one of the two steps is a no-op. -/
theorem first_entry_steps_are_not_noops :
    on_right_arrow c6Bs ≠ c6Bs ∧
    on_left_arrow (on_right_arrow c6Bs) ≠ on_right_arrow c6Bs ∧
    on_left_arrow (on_right_arrow c6Bs) = c6Bs := by
  refine ⟨?_, ?_, ?_⟩ <;> decide

/-- C6, amended: `step(next)` followed by `step(prev)` restores the
original selection from every position that is not the last one
(including the first); at the last position `step(next)` alone is a
no-op.  Stated for a well-formed index whose `indices` are
duplicate-free, with the current selection at array position `p`. -/
theorem step_roundtrip_amended (bs : BrowserState) (td : TicData) (p : Nat)
    (htd : bs.tic_data = some td) (hnd : td.indices.Nodup)
    (hp : p < td.indices.length)
    (hcur : bs.current_spectrum_index = td.indices.getD p 0) :
    (p + 1 < td.indices.length → on_left_arrow (on_right_arrow bs) = bs) ∧
    (p = td.indices.length - 1 → on_right_arrow bs = bs) := by
  have hcur' : td.indices.indexOf bs.current_spectrum_index = p := by
    rw [hcur]
    exact indexOf_getD_of_nodup td.indices hnd p hp
  constructor
  · intro hlt
    have hn : 1 < td.indices.length := by omega
    have h1 : on_right_arrow bs =
        { bs with current_spectrum_index := td.indices.getD (p + 1) 0 } := by
      unfold on_right_arrow
      rw [htd]
      simp only [hcur', if_pos hn]
      rw [if_pos (by omega)]
    have hcur2 : td.indices.indexOf
        (td.indices.getD (p + 1) 0) = p + 1 :=
      indexOf_getD_of_nodup td.indices hnd (p + 1) hlt
    rw [h1]
    unfold on_left_arrow
    simp only [htd]
    simp only [hcur2, if_pos hn]
    rw [if_pos (by omega)]
    simp only [Nat.add_sub_cancel]
    rw [← hcur, ← htd]
  · intro hlast
    unfold on_right_arrow
    rw [htd]
    dsimp only
    by_cases hn : 1 < td.indices.length
    · simp only [hcur', if_pos hn]
      rw [if_neg (by omega)]
    · rw [if_neg hn]

theorem step_roundtrip_amended_witness :
    (c6Bs.tic_data = some c6Td ∧ c6Td.indices.Nodup ∧
      0 < c6Td.indices.length ∧
      c6Bs.current_spectrum_index = c6Td.indices.getD 0 0 ∧
      0 + 1 < c6Td.indices.length) ∧
    on_left_arrow (on_right_arrow c6Bs) = c6Bs :=
  ⟨⟨rfl, by decide, by decide, rfl, by decide⟩,
    (step_roundtrip_amended c6Bs c6Td 0 rfl (by decide) (by decide) rfl).1
      (by decide)⟩

theorem goodMs1_iff (r : RawSpectrum) :
    goodMs1 r = true ↔
      r.ms_level = some 1 ∧ r.scan_time.isSome ∧ r.tic.isSome := by
  simp [goodMs1, and_assoc]

theorem load_spectra_data (bs : BrowserState) (records : List RawSpectrum) :
    (load_mzml_file bs records).1.spectra_data =
      (loadLoop (initLoadState bs) 0 records).spectra_data := by
  unfold load_mzml_file
  by_cases h : (loadLoop (initLoadState bs) 0 records).spectrum_indices.isEmpty <;>
    simp [h]

theorem load_tic_of_success (bs : BrowserState) (records : List RawSpectrum)
    (td : TicData)
    (htd : (load_mzml_file bs records).1.tic_data = some td)
    (hok : (load_mzml_file bs records).2 = true) :
    td.indices = (loadLoop (initLoadState bs) 0 records).spectrum_indices := by
  unfold load_mzml_file at htd hok
  by_cases h : (loadLoop (initLoadState bs) 0 records).spectrum_indices.isEmpty
  · simp [h] at hok
  · simp only [h, Bool.false_eq_true, if_false, if_neg] at htd
    have h2 := Option.some.inj htd
    rw [← h2]

def freshBs : BrowserState :=
  ⟨none, [], 0, false, false, none, none, (0, 1), (0, 1)⟩

def c1Records : List RawSpectrum :=
  [⟨some 1, some 1, some 5, some (some []), some (some [])⟩]

/-- C1, counterexample: a level-1 record with empty mz/intensity arrays
IS appended to the TIC series (the load succeeds and its
`sequence_index` 0 appears in the committed `indices`) while it is NOT
inserted into the spectrum store — the claimed invariant fails. -/
theorem empty_array_ms1_in_tic_not_in_store :
    (load_mzml_file freshBs c1Records).2 = true ∧
    (∃ td, (load_mzml_file freshBs c1Records).1.tic_data = some td ∧
      0 ∈ td.indices) ∧
    storeLookup (load_mzml_file freshBs c1Records).1.spectra_data 0 = none := by
  refine ⟨by decide, ⟨⟨[1], [5], [0]⟩, by decide, by decide⟩, by decide⟩

/-- C1, amended: a `sequence_index` of the committed TIC series whose
record carries readable, non-`None`, non-empty mz values and readable,
non-`None` intensity values is a key of the spectrum store, and its
entry holds the record's own scan time and arrays.  (A level-1 record
with empty arrays enters the TIC series but not the store, as the
counterexample shows.) -/
theorem tic_entry_with_nonempty_arrays_in_store
    (bs : BrowserState) (records : List RawSpectrum) (td : TicData)
    (k : Nat) (mzl il : List ℚ)
    (htd : (load_mzml_file bs records).1.tic_data = some td)
    (hok : (load_mzml_file bs records).2 = true)
    (hk : k ∈ td.indices)
    (hmz : (records.getD k default).mz = some (some mzl))
    (hne : mzl ≠ [])
    (hint : (records.getD k default).intensities = some (some il)) :
    ∃ t, (records.getD k default).scan_time = some t ∧
      storeLookup (load_mzml_file bs records).1.spectra_data k
        = some ⟨t, mzl, il, k⟩ := by
  rw [load_tic_of_success bs records td htd hok] at hk
  rw [loadLoop_indices] at hk
  simp only [initLoadState, List.nil_append] at hk
  rcases (mem_ticIndicesOf records 0 k).mp hk with ⟨j, hj, hkj, hg⟩
  have hjk : j = k := by omega
  subst hjk
  rcases (goodMs1_iff _).mp hg with ⟨hms, hst, _⟩
  rcases Option.isSome_iff_exists.mp hst with ⟨t, ht⟩
  rcases (goodMs1_iff _).mp hg with ⟨_, _, htc⟩
  rcases Option.isSome_iff_exists.mp htc with ⟨tot, htot⟩
  refine ⟨t, ht, ?_⟩
  rw [load_spectra_data]
  have hstore := loadLoop_store_at records (initLoadState bs) 0 j hj
  simp only [Nat.zero_add] at hstore
  rw [hstore]
  have hlen : 0 < mzl.length := List.length_pos.mpr hne
  generalize hgen : records.getD j default = r at hms ht htot hmz hint ⊢
  simp [storeAttempt, storeCheck, hms, ht, htot, hmz, hint, hlen, Option.or]

def c1GoodRecords : List RawSpectrum :=
  [⟨some 1, some 3, some 9, some (some [100]), some (some [200])⟩]

theorem tic_entry_with_nonempty_arrays_in_store_witness :
    ((load_mzml_file freshBs c1GoodRecords).1.tic_data =
        some ⟨[3], [9], [0]⟩ ∧
      (load_mzml_file freshBs c1GoodRecords).2 = true ∧
      0 ∈ (⟨[3], [9], [0]⟩ : TicData).indices ∧
      ((c1GoodRecords.getD 0 default).mz = some (some [100]) ∧
        ([100] : List ℚ) ≠ [] ∧
        (c1GoodRecords.getD 0 default).intensities = some (some [200]))) ∧
    (∃ t, (c1GoodRecords.getD 0 default).scan_time = some t ∧
      storeLookup (load_mzml_file freshBs c1GoodRecords).1.spectra_data 0
        = some ⟨t, [100], [200], 0⟩) :=
  ⟨⟨by decide, by decide, by decide, by decide, by decide, by decide⟩,
    tic_entry_with_nonempty_arrays_in_store freshBs c1GoodRecords
      ⟨[3], [9], [0]⟩ 0 [100] [200] (by decide) (by decide) (by decide)
      (by decide) (by decide) (by decide)⟩

def c2Bs : BrowserState :=
  ⟨some ⟨[9], [9], [3]⟩, [], 7, false, false, none, none, (0, 1), (0, 1)⟩

def c2Records : List RawSpectrum :=
  [⟨some 1, some 2, none, some (some [3]), some (some [4])⟩,
   ⟨some 2, none, none, some (some [1]), some (some [2])⟩]

/-- C2, counterexample: a load that fails with the no-MS1-spectra error
leaves an entry inserted during the failed load visible in the spectrum
store (the store is mutated in place during the loop and is never
cleared), so the previously loaded state is not preserved wholesale.
Record 0 is level 1 with a readable scan time but a raising `TIC`
lookup, so `rt` stays bound while no TIC entry is appended; record 1
is then stored under that leftover `rt`; the load fails. -/
theorem failed_load_pollutes_store :
    (load_mzml_file c2Bs c2Records).2 = false ∧
    storeLookup c2Bs.spectra_data 1 = none ∧
    storeLookup (load_mzml_file c2Bs c2Records).1.spectra_data 1 =
      some ⟨2, [1], [2], 1⟩ :=
  ⟨by decide, by decide, by decide⟩

/-- C2, amended: a failed load (no MS1 spectra) leaves the previously
loaded TIC series and the current selection intact, but the spectrum
store may retain entries inserted during the failed load. -/
theorem failed_load_preserves_tic_and_selection
    (bs : BrowserState) (records : List RawSpectrum)
    (h : (load_mzml_file bs records).2 = false) :
    (load_mzml_file bs records).1.tic_data = bs.tic_data ∧
    (load_mzml_file bs records).1.current_spectrum_index =
      bs.current_spectrum_index ∧
    (load_mzml_file bs records).1.loading_label = bs.loading_label := by
  unfold load_mzml_file at h ⊢
  by_cases he : (loadLoop (initLoadState bs) 0 records).spectrum_indices.isEmpty
  · simp [he]
  · simp [he] at h

theorem failed_load_preserves_tic_and_selection_witness :
    (load_mzml_file c2Bs c2Records).2 = false ∧
    ((load_mzml_file c2Bs c2Records).1.tic_data = c2Bs.tic_data ∧
      (load_mzml_file c2Bs c2Records).1.current_spectrum_index =
        c2Bs.current_spectrum_index ∧
      (load_mzml_file c2Bs c2Records).1.loading_label =
        c2Bs.loading_label) :=
  ⟨by decide,
    failed_load_preserves_tic_and_selection c2Bs c2Records (by decide)⟩

def c4Records : List RawSpectrum :=
  [⟨some 1, some 0, some 0, some (some [1]), some (some [1])⟩]

/-- C4, counterexample: a stream whose only level-1 record reports a
total ion current of zero does NOT fail — the code only tests whether
`spectrum_indices` is empty and never inspects the ion-current value, so
the load succeeds and commits a TIC entry with intensity 0. -/
theorem zero_tic_ms1_still_succeeds :
    (load_mzml_file freshBs c4Records).2 = true ∧
    (load_mzml_file freshBs c4Records).1.tic_data =
      some ⟨[0], [0], [0]⟩ :=
  ⟨by decide, by decide⟩

/-- C4, amended: the load fails with the no-MS1-spectra error exactly
when the stream contains no level-1 record whose scan-time and TIC
lookups both succeed — independently of the reported ion-current value
(a zero total ion current still counts). -/
theorem load_fails_iff_no_ms1_record
    (bs : BrowserState) (records : List RawSpectrum) :
    (load_mzml_file bs records).2 = false ↔
      ∀ r ∈ records, goodMs1 r = false := by
  have hind : (loadLoop (initLoadState bs) 0 records).spectrum_indices =
      ticIndicesOf 0 records := by
    rw [loadLoop_indices]
    simp [initLoadState]
  unfold load_mzml_file
  by_cases he : (loadLoop (initLoadState bs) 0 records).spectrum_indices.isEmpty
  · have hnil : ticIndicesOf 0 records = [] := by
      rw [← hind]
      exact List.isEmpty_iff.mp he
    simp only [he, if_true]
    simp only [List.isEmpty_iff] at he
    constructor
    · intro _
      exact fun r hr => (ticIndicesOf_eq_nil records 0).mp hnil r hr
    · intro _
      trivial
  · have hne : ticIndicesOf 0 records ≠ [] := by
      rw [← hind]
      intro h2
      exact he (by simp [h2])
    simp only [he, Bool.false_eq_true, if_false]
    constructor
    · intro h
      simp at h
    · intro hall
      exact absurd ((ticIndicesOf_eq_nil records 0).mpr hall) hne

def c3Bs : BrowserState :=
  ⟨some ⟨[9], [9], [3]⟩, [], 3, true, false, none, none, (0, 1), (0, 1)⟩

def c3Records : List RawSpectrum :=
  [⟨some 1, some 0, some 10, some (some [1]), some (some [1])⟩,
   ⟨some 1, some 1, some 10, some (some [1]), some (some [1])⟩,
   ⟨some 1, some 2, some 10, some (some [1]), some (some [1])⟩,
   ⟨some 1, some 3, some 10, some (some [1]), some (some [1])⟩]

/-- C3 (code bug): `cancel_loading` only hides the loading indicator and
sets a status message; the parse loop never consults any cancellation
flag, so a cancel signalled while any record `k` is being processed
changes nothing about what the build computes and commits — the indexed
outcome of a cancelled load equals that of an uncancelled one — and, on
a concrete stream with a previously loaded index, the cancelled build
still commits a new TIC series and a new selection over the prior
ones instead of discarding its work. -/
theorem cancel_loading_does_not_stop_build :
    (∀ (bs : BrowserState) (records : List RawSpectrum) (k : Nat),
      (load_mzml_file_cancelled bs records k).1.tic_data =
          (load_mzml_file bs records).1.tic_data ∧
        (load_mzml_file_cancelled bs records k).1.spectra_data =
          (load_mzml_file bs records).1.spectra_data ∧
        (load_mzml_file_cancelled bs records k).1.current_spectrum_index =
          (load_mzml_file bs records).1.current_spectrum_index ∧
        (load_mzml_file_cancelled bs records k).2 =
          (load_mzml_file bs records).2) ∧
    ((load_mzml_file_cancelled c3Bs c3Records 1).2 = true ∧
      (load_mzml_file_cancelled c3Bs c3Records 1).1.tic_data ≠
        c3Bs.tic_data ∧
      (load_mzml_file_cancelled c3Bs c3Records 1).1.current_spectrum_index ≠
        c3Bs.current_spectrum_index) := by
  constructor
  · intro bs records k
    simp only [load_mzml_file_cancelled, load_mzml_file, loadLoopCancel_fst]
    by_cases he :
        (loadLoop (initLoadState bs) 0 records).spectrum_indices.isEmpty <;>
      simp [he]
  · exact ⟨by decide, by decide, by decide⟩

theorem storeCheck_none (i : Nat) (r : RawSpectrum) (rt : Option ℚ)
    (h : r.mz = none ∨ r.mz = some none ∨ r.intensities = none ∨
      r.intensities = some none ∨ r.mz = some (some [])) :
    storeCheck i r rt = none := by
  rcases r with ⟨ml, stime, tc, mz, ints⟩
  dsimp only at h
  unfold storeCheck
  rcases mz with _ | (_ | mzl) <;> rcases ints with _ | (_ | il) <;>
    first
      | rfl
      | (rcases h with h | h | h | h | h <;> simp_all)

theorem storeAttempt_malformed (i : Nat) (r : RawSpectrum) (rt : Option ℚ)
    (h : malformed r) : storeAttempt i r rt = none := by
  unfold storeAttempt
  rcases hml : r.ms_level with _ | lvl
  · rfl
  · have harr : r.mz = none ∨ r.mz = some none ∨ r.intensities = none ∨
        r.intensities = some none ∨ r.mz = some (some []) := by
      rcases h with h | h | h | h | h | h
      · exact Or.inl h
      · exact Or.inr (Or.inl h)
      · exact Or.inr (Or.inr (Or.inl h))
      · exact Or.inr (Or.inr (Or.inr (Or.inl h)))
      · exact Or.inr (Or.inr (Or.inr (Or.inr h)))
      · rw [h] at hml
        exact absurd hml (by simp)
    dsimp only
    by_cases hl : lvl = 1
    · subst hl
      rw [if_pos rfl]
      rcases hst : r.scan_time with _ | t <;>
        rcases htc : r.tic with _ | tot <;>
        simp [storeCheck_none i r _ harr]
    · rw [if_neg hl]
      exact storeCheck_none i r rt harr

def c8Records : List RawSpectrum :=
  [⟨some 1, some 1, some 10, some (some [1, 2, 3]), some (some [5])⟩]

/-- C8, counterexample: a record whose mz and intensity arrays have
UNEQUAL lengths (3 versus 1) is inserted into the spectrum store — the
code checks only that the arrays are not `None` and that the mz array is
non-empty, never that the lengths agree — refuting the claim that
unequal-length records are skipped. -/
theorem mismatched_arrays_are_stored :
    (load_mzml_file freshBs c8Records).2 = true ∧
    storeLookup (load_mzml_file freshBs c8Records).1.spectra_data 0 =
      some ⟨1, [1, 2, 3], [5], 0⟩ :=
  ⟨by decide, by decide⟩

/-- C8, amended: a record whose `ms_level`, `mz` or `i` lookup raises,
whose mz or intensity value is `None`, or whose mz array is empty is
skipped — it is never inserted into the store — and the build continues:
any later well-formed level-1 record with non-empty arrays is still
stored.  (Unequal-length arrays are NOT a skip condition, as the
counterexample shows.) -/
theorem malformed_record_skipped_build_continues
    (bs : BrowserState) (records : List RawSpectrum) (j : Nat)
    (hj : j < records.length)
    (hbad : malformed (records.getD j default))
    (hnot : storeLookup bs.spectra_data j = none) :
    storeLookup (load_mzml_file bs records).1.spectra_data j = none ∧
    (∀ k, k < records.length → j < k →
      ∀ (mzl il : List ℚ) (t : ℚ),
        (records.getD k default).ms_level = some 1 →
        (records.getD k default).scan_time = some t →
        (records.getD k default).tic.isSome →
        (records.getD k default).mz = some (some mzl) → mzl ≠ [] →
        (records.getD k default).intensities = some (some il) →
        storeLookup (load_mzml_file bs records).1.spectra_data k =
          some ⟨t, mzl, il, k⟩) := by
  constructor
  · rw [load_spectra_data]
    have hstore := loadLoop_store_at records (initLoadState bs) 0 j hj
    simp only [Nat.zero_add] at hstore
    rw [hstore, storeAttempt_malformed j _ _ hbad]
    simpa [initLoadState] using hnot
  · intro k hk _ mzl il t hms ht htc hmz hne hint
    rcases Option.isSome_iff_exists.mp htc with ⟨tot, htot⟩
    rw [load_spectra_data]
    have hstore := loadLoop_store_at records (initLoadState bs) 0 k hk
    simp only [Nat.zero_add] at hstore
    rw [hstore]
    have hlen : 0 < mzl.length := List.length_pos.mpr hne
    generalize records.getD k default = r at hms ht htot hmz hint ⊢
    simp [storeAttempt, storeCheck, hms, ht, htot, hmz, hint, hlen, Option.or]

def c8MixedRecords : List RawSpectrum :=
  [⟨some 1, some 1, some 5, some none, some (some [7])⟩,
   ⟨some 1, some 2, some 6, some (some [3]), some (some [4])⟩]

theorem malformed_record_skipped_build_continues_witness :
    (0 < c8MixedRecords.length ∧ malformed (c8MixedRecords.getD 0 default) ∧
      storeLookup freshBs.spectra_data 0 = none) ∧
    (storeLookup (load_mzml_file freshBs c8MixedRecords).1.spectra_data 0 =
        none ∧
      storeLookup (load_mzml_file freshBs c8MixedRecords).1.spectra_data 1 =
        some ⟨2, [3], [4], 1⟩) := by
  have h := malformed_record_skipped_build_continues freshBs c8MixedRecords 0
    (by decide) (Or.inr (Or.inl (by decide))) (by decide)
  refine ⟨⟨by decide, Or.inr (Or.inl (by decide)), by decide⟩, h.1, ?_⟩
  exact h.2 1 (by decide) (by decide) [3] [4] 2 (by decide) (by decide)
    (by decide) (by decide) (by decide) (by decide)

def c9Bs : BrowserState :=
  ⟨none, [], 0, false, true, some (some 1, some 2), some (some 3, some 4),
    (0, 1), (0, 1)⟩

/-- C9, counterexample: with a drag selection in progress
(`zoom_active = true`), a pointer-up OUTSIDE the mass-spectrum plot does
not return the machine to `Idle` — `on_mouse_release` requires
`event.inaxes == ax2`, so `zoom_active` stays `true` and the pending
anchor survives; likewise a second pointer-down inside the plot leaves
the machine `Selecting` (re-anchoring it) rather than returning to
`Idle`. -/
theorem release_outside_plot_stays_selecting :
    c9Bs.zoom_active = true ∧
    (on_mouse_release c9Bs ⟨some PlotAxes.ticPlot, 1, some 5, some 6⟩).zoom_active
      = true ∧
    (on_mouse_release c9Bs ⟨some PlotAxes.ticPlot, 1, some 5, some 6⟩).zoom_start
      = some (some 1, some 2) ∧
    (on_click c9Bs ⟨some PlotAxes.specPlot, 1, some 7, some 8⟩).zoom_active
      = true :=
  ⟨by decide, by decide, by decide, by decide⟩

/-- C9, amended: from `Selecting`, only a left-button pointer-up INSIDE
the mass-spectrum plot returns the machine to `Idle` (clearing the
pending anchor and endpoint); a pointer-up anywhere else leaves the
state — and hence the pending selection — completely unchanged. -/
theorem release_inside_plot_returns_to_idle
    (bs : BrowserState) (e : MouseEvent) (hact : bs.zoom_active = true) :
    ((e.inaxes = some PlotAxes.specPlot ∧ e.button = 1) →
      (on_mouse_release bs e).zoom_active = false ∧
      (on_mouse_release bs e).zoom_start = none ∧
      (on_mouse_release bs e).zoom_end = none) ∧
    (e.inaxes ≠ some PlotAxes.specPlot → on_mouse_release bs e = bs) := by
  constructor
  · rintro ⟨h1, h2⟩
    unfold on_mouse_release
    rw [if_pos ⟨by simp [hact], h1, h2⟩]
    exact ⟨rfl, rfl, rfl⟩
  · intro h
    unfold on_mouse_release
    rw [if_neg]
    rintro ⟨_, h2, _⟩
    exact h h2

theorem release_inside_plot_returns_to_idle_witness :
    (c9Bs.zoom_active = true ∧
      ((⟨some PlotAxes.specPlot, 1, some 5, some 6⟩ : MouseEvent).inaxes =
          some PlotAxes.specPlot ∧
        (⟨some PlotAxes.specPlot, 1, some 5, some 6⟩ : MouseEvent).button = 1)) ∧
    ((on_mouse_release c9Bs
        ⟨some PlotAxes.specPlot, 1, some 5, some 6⟩).zoom_active = false ∧
      (on_mouse_release c9Bs
        ⟨some PlotAxes.specPlot, 1, some 5, some 6⟩).zoom_start = none ∧
      (on_mouse_release c9Bs
        ⟨some PlotAxes.specPlot, 1, some 5, some 6⟩).zoom_end = none) :=
  ⟨⟨by decide, rfl, rfl⟩,
    (release_inside_plot_returns_to_idle c9Bs
      ⟨some PlotAxes.specPlot, 1, some 5, some 6⟩ (by decide)).1 ⟨rfl, rfl⟩⟩

theorem loadLoop_store_hi (rs : List RawSpectrum) :
    ∀ (st : LoadState) (i k : Nat), i + rs.length ≤ k →
      storeLookup (loadLoop st i rs).spectra_data k =
        storeLookup st.spectra_data k := by
  induction rs with
  | nil => intro st i k _; rfl
  | cons r rs ih =>
      intro st i k hk
      simp only [List.length_cons] at hk
      simp only [loadLoop]
      rw [ih _ _ _ (by omega),
        processRecord_store_lookup_ne _ _ _ _ (by omega)]

theorem getD_take {α : Type} (l : List α) (j m : Nat) (d : α)
    (hm : m < (l.take j).length) : (l.take j).getD m d = l.getD m d := by
  have hm' : m < l.length := by
    simp only [List.length_take] at hm
    omega
  rw [List.getD_eq_getElem _ d hm, List.getD_eq_getElem _ d hm']
  exact List.getElem_take l

theorem storeCheck_some_rt (i : Nat) (r : RawSpectrum) (rt : Option ℚ)
    (entry : StoredSpectrum) (h : storeCheck i r rt = some entry) :
    rt = some entry.rt := by
  rcases r with ⟨ml, stime, tc, mz, ints⟩
  unfold storeCheck at h
  rcases mz with _ | (_ | mzl) <;> rcases ints with _ | (_ | il) <;>
    simp_all
  rcases rt with _ | t
  · simp_all
  · rcases h with ⟨_, h2⟩
    dsimp only at h2
    rw [← Option.some.inj h2]

theorem storeCheck_rt_none (i : Nat) (r : RawSpectrum) :
    storeCheck i r none = none := by
  rcases r with ⟨ml, stime, tc, mz, ints⟩
  unfold storeCheck
  rcases mz with _ | (_ | mzl) <;> rcases ints with _ | (_ | il) <;> simp

/-- C10: a record with `ms_level ≠ 1` that ends up in the spectrum store
is stored under the retention time of the most recent preceding level-1
record of the stream (the leftover `rt` binding), not its own; and such
a record arriving before any level-1 record is not inserted at all (the
`NameError` on the unbound `rt` is absorbed by the per-record handler).
Stated for streams whose level-1 records have readable scan times and
for keys not present in the store before the load. -/
theorem non_ms1_store_entry_rt_from_preceding_ms1
    (bs : BrowserState) (records : List RawSpectrum) (j lvl : Nat)
    (hms : (records.getD j default).ms_level = some lvl)
    (hlvl : lvl ≠ 1)
    (hwf : ∀ r ∈ records, r.ms_level = some 1 → r.scan_time.isSome)
    (hnot : storeLookup bs.spectra_data j = none) :
    (∀ entry : StoredSpectrum,
      storeLookup (load_mzml_file bs records).1.spectra_data j = some entry →
      ∃ m, m < j ∧ (records.getD m default).ms_level = some 1 ∧
        (records.getD m default).scan_time = some entry.rt ∧
        ∀ m', m < m' → m' < j →
          (records.getD m' default).ms_level ≠ some 1) ∧
    ((∀ m, m < j → (records.getD m default).ms_level ≠ some 1) →
      storeLookup (load_mzml_file bs records).1.spectra_data j = none) := by
  have hinit : storeLookup (initLoadState bs).spectra_data j = none := by
    simpa [initLoadState] using hnot
  constructor
  · intro entry hent
    rw [load_spectra_data] at hent
    rcases Nat.lt_or_ge j records.length with hjlen | hge
    · have hstore := loadLoop_store_at records (initLoadState bs) 0 j hjlen
      simp only [Nat.zero_add] at hstore
      rw [hstore, hinit] at hent
      have hatt : storeAttempt j (records.getD j default)
          ((records.take j).foldl rtUpd (initLoadState bs).rt)
            = some entry := by
        rcases hcase : storeAttempt j (records.getD j default)
            ((records.take j).foldl rtUpd (initLoadState bs).rt) with _ | v
        · rw [hcase] at hent
          simp [Option.or] at hent
        · rw [hcase] at hent
          simpa [Option.or] using hent
      unfold storeAttempt at hatt
      rw [hms] at hatt
      dsimp only at hatt
      rw [if_neg hlvl] at hatt
      have hrtB := storeCheck_some_rt j _ _ entry hatt
      have hwf' : ∀ r ∈ records.take j, r.ms_level = some 1 →
          r.scan_time.isSome :=
        fun r hr => hwf r (List.mem_of_mem_take hr)
      have htlen : (records.take j).length = j := by
        simp [List.length_take]
        omega
      rcases foldl_rtUpd_some (records.take j) (initLoadState bs).rt entry.rt
          hwf' hrtB with ⟨m, hm, hmms, hmst, hafter⟩ | ⟨habs, _⟩
      · rw [htlen] at hm
        have hmlen : m < (records.take j).length := by omega
        refine ⟨m, hm, ?_, ?_, ?_⟩
        · rw [← getD_take records j m default hmlen]
          exact hmms
        · rw [← getD_take records j m default hmlen]
          exact hmst
        · intro m' h1 h2
          have hm'len : m' < (records.take j).length := by omega
          rw [← getD_take records j m' default hm'len]
          exact hafter m' h1 (by omega)
      · exact absurd habs (by simp [initLoadState])
    · rw [loadLoop_store_hi records _ 0 j (by omega), hinit] at hent
      simp at hent
  · intro hnoms1
    rw [load_spectra_data]
    rcases Nat.lt_or_ge j records.length with hjlen | hge
    · have hstore := loadLoop_store_at records (initLoadState bs) 0 j hjlen
      simp only [Nat.zero_add] at hstore
      rw [hstore]
      have hnone : ∀ r ∈ records.take j, r.ms_level ≠ some 1 := by
        intro r hr
        rcases List.mem_iff_getElem.mp hr with ⟨m, hmlen, hval⟩
        have hmj : m < j := by
          simp [List.length_take] at hmlen
          omega
        have hr2 : records.getD m default = r := by
          rw [← getD_take records j m default hmlen,
            List.getD_eq_getElem _ _ hmlen, hval]
        rw [← hr2]
        exact hnoms1 m hmj
      have hfold : (records.take j).foldl rtUpd (initLoadState bs).rt
          = none :=
        foldl_rtUpd_no_ms1 (records.take j) _ hnone
      rw [hfold]
      have hatt : storeAttempt j (records.getD j default) none = none := by
        unfold storeAttempt
        rw [hms]
        dsimp only
        rw [if_neg hlvl]
        exact storeCheck_rt_none j _
      rw [hatt, hinit]
      rfl
    · rw [loadLoop_store_hi records _ 0 j (by omega)]
      exact hinit

def c10Records : List RawSpectrum :=
  [⟨some 1, some 5, some 7, some (some [1]), some (some [1])⟩,
   ⟨some 2, some 9, some 8, some (some [1]), some (some [2])⟩]

theorem non_ms1_store_entry_rt_from_preceding_ms1_witness :
    ((c10Records.getD 1 default).ms_level = some 2 ∧ (2 : Nat) ≠ 1 ∧
      (∀ r ∈ c10Records, r.ms_level = some 1 → r.scan_time.isSome) ∧
      storeLookup freshBs.spectra_data 1 = none ∧
      storeLookup (load_mzml_file freshBs c10Records).1.spectra_data 1 =
        some ⟨5, [1], [2], 1⟩ ∧
      (c10Records.getD 1 default).scan_time = some 9) ∧
    (∃ m, m < 1 ∧ (c10Records.getD m default).ms_level = some 1 ∧
      (c10Records.getD m default).scan_time =
        some (StoredSpectrum.rt ⟨5, [1], [2], 1⟩) ∧
      ∀ m', m < m' → m' < 1 →
        (c10Records.getD m' default).ms_level ≠ some 1) :=
  ⟨⟨by decide, by decide, by decide, by decide, by decide, by decide⟩,
    (non_ms1_store_entry_rt_from_preceding_ms1 freshBs c10Records 1 2
      (by decide) (by decide) (by decide) (by decide)).1
      ⟨5, [1], [2], 1⟩ (by decide)⟩

theorem topPeakPositions_spec (intf : List ℚ) :
    (topPeakPositions intf).length = min 10 intf.length ∧
    (∀ k ∈ topPeakPositions intf, k < intf.length) ∧
    (∀ k ∈ topPeakPositions intf, ∀ j, j < intf.length →
      j ∉ topPeakPositions intf → intf.getD j 0 ≤ intf.getD k 0) := by
  haveI h1 : IsTotal Nat (fun a b => intf.getD a 0 ≤ intf.getD b 0) :=
    ⟨fun a b => le_total _ _⟩
  haveI h2 : IsTrans Nat (fun a b => intf.getD a 0 ≤ intf.getD b 0) :=
    ⟨fun a b c hab hbc => le_trans hab hbc⟩
  have hperm := List.perm_insertionSort
    (fun a b => intf.getD a 0 ≤ intf.getD b 0) (List.range intf.length)
  have hsort := List.sorted_insertionSort
    (fun a b => intf.getD a 0 ≤ intf.getD b 0) (List.range intf.length)
  have hlen : (List.insertionSort (fun a b => intf.getD a 0 ≤ intf.getD b 0)
      (List.range intf.length)).length = intf.length := by
    rw [List.length_insertionSort, List.length_range]
  have hmem : ∀ k, k ∈ topPeakPositions intf → k < intf.length := by
    intro k hk
    unfold topPeakPositions at hk
    have := List.mem_of_mem_drop hk
    rw [hperm.mem_iff, List.mem_range] at this
    exact this
  refine ⟨?_, hmem, ?_⟩
  · unfold topPeakPositions
    rw [List.length_drop, hlen]
    omega
  · intro k hk j hj hnj
    have hjmem : j ∈ List.insertionSort
        (fun a b => intf.getD a 0 ≤ intf.getD b 0)
        (List.range intf.length) := by
      rw [hperm.mem_iff, List.mem_range]
      exact hj
    unfold topPeakPositions at hk hnj
    rw [← List.take_append_drop (intf.length - 10)
      (List.insertionSort (fun a b => intf.getD a 0 ≤ intf.getD b 0)
        (List.range intf.length)), List.mem_append] at hjmem
    have hjtake : j ∈ List.take (intf.length - 10)
        (List.insertionSort (fun a b => intf.getD a 0 ≤ intf.getD b 0)
          (List.range intf.length)) := by
      rcases hjmem with h | h
      · exact h
      · exact absurd h hnj
    have hpw := hsort
    rw [List.Sorted, ← List.take_append_drop (intf.length - 10)
      (List.insertionSort (fun a b => intf.getD a 0 ≤ intf.getD b 0)
        (List.range intf.length)), List.pairwise_append] at hpw
    exact hpw.2.2 j hjtake k hk

/-- C7: for a record's parallel arrays, the rendering pipeline keeps
exactly the pairs with positive intensity in their original order
(boolean-mask filtering is an order-preserving sublist), and the
annotated peaks are the `min 10 n` filtered positions of highest
intensity: every selected position's intensity is at least every
non-selected filtered position's intensity. -/
theorem render_spectrum_filter_and_peaks (mz intens : List ℚ)
    (_hlen : mz.length = intens.length) :
    ((mz.zip intens).filter (fun p => 0 < p.2)).Sublist (mz.zip intens) ∧
    (∀ p ∈ mz.zip intens,
      0 < p.2 ↔ p ∈ (mz.zip intens).filter (fun p => 0 < p.2)) ∧
    (render_spectrum_arrays mz intens).2.2.length =
      min 10 (renderFiltered mz intens).2.length ∧
    (∀ k ∈ topPeakPositions (renderFiltered mz intens).2,
      k < (renderFiltered mz intens).2.length) ∧
    (∀ k ∈ topPeakPositions (renderFiltered mz intens).2,
      ∀ j, j < (renderFiltered mz intens).2.length →
        j ∉ topPeakPositions (renderFiltered mz intens).2 →
        (renderFiltered mz intens).2.getD j 0 ≤
          (renderFiltered mz intens).2.getD k 0) := by
  refine ⟨List.filter_sublist _, ?_, ?_, (topPeakPositions_spec _).2.1,
    (topPeakPositions_spec _).2.2⟩
  · intro p hp
    constructor
    · intro hpos
      exact List.mem_filter.mpr ⟨hp, by simpa using hpos⟩
    · intro hmem
      simpa using (List.mem_filter.mp hmem).2
  · show ((topPeakPositions (renderFiltered mz intens).2).map _).length = _
    rw [List.length_map]
    exact (topPeakPositions_spec _).1

def c7Mz : List ℚ :=
  [1, 2, 3, 4, 5, 6, 7, 8, 9, 10, 11, 12, 13, 14, 15]

def c7Int : List ℚ :=
  [3, 14, 7, 1, 9, 12, 5, 8, 2, 13, 6, 11, 4, 15, 10]

theorem render_spectrum_filter_and_peaks_witness :
    (c7Mz.length = c7Int.length ∧
      (render_spectrum_arrays c7Mz c7Int).2.2.length = 10) ∧
    (((c7Mz.zip c7Int).filter (fun p => 0 < p.2)).Sublist
        (c7Mz.zip c7Int) ∧
      (∀ p ∈ c7Mz.zip c7Int,
        0 < p.2 ↔ p ∈ (c7Mz.zip c7Int).filter (fun p => 0 < p.2)) ∧
      (render_spectrum_arrays c7Mz c7Int).2.2.length =
        min 10 (renderFiltered c7Mz c7Int).2.length ∧
      (∀ k ∈ topPeakPositions (renderFiltered c7Mz c7Int).2,
        k < (renderFiltered c7Mz c7Int).2.length) ∧
      (∀ k ∈ topPeakPositions (renderFiltered c7Mz c7Int).2,
        ∀ j, j < (renderFiltered c7Mz c7Int).2.length →
          j ∉ topPeakPositions (renderFiltered c7Mz c7Int).2 →
          (renderFiltered c7Mz c7Int).2.getD j 0 ≤
            (renderFiltered c7Mz c7Int).2.getD k 0)) :=
  ⟨⟨by decide, by decide⟩,
    render_spectrum_filter_and_peaks c7Mz c7Int (by decide)⟩
